import Mathlib

/-!
Shallow embedding of the argocd-ci-aware-generator service:
the request handler `process_argocd_param` (src/app/main.py), the CI check
evaluator `commit_passed_checks` (src/app/github_utils.py), and the
`DatabaseService` store operations (src/app/state.py), together with proofs
about them.
-/

namespace ArgoGen

/-- JSON-like values carried in `state` mappings (pydantic `model_dump`
produces a string-keyed mapping; passthrough fields may hold arbitrary
JSON scalars, modelled here by this type). -/
inductive Val where
  | str : String → Val
  | int : Int → Val
  | bool : Bool → Val
  | null : Val
deriving DecidableEq, Repr

/-- A `state` object: an ordered string-keyed mapping, the result of a
pydantic `model_dump()`. -/
abbrev StateMap := List (String × Val)

/-! ## Python string helpers

The handler uses Python `str.split("/")`, `str.removeprefix`,
`str.removesuffix`, `str.startswith` and negative indexing.  These are
modelled on the character list of the string, with Python semantics
(`"".split("/") == [""]`, `removesuffix` strips at most one occurrence). -/

/-- Python `str.split(sep)` for a single-character separator, on char
lists: `"" ↦ [""]`, `"/" ↦ ["", ""]`, `"a/b" ↦ ["a", "b"]`. -/
def pySplitChar (c : Char) : List Char → List (List Char)
  | [] => [[]]
  | x :: xs =>
    let r := pySplitChar c xs
    if x = c then [] :: r
    else
      match r with
      | [] => [[x]]
      | y :: ys => (x :: y) :: ys

/-- Python `s.split(c)` for a one-character separator `c`. -/
def pySplit (s : String) (c : Char) : List String :=
  (pySplitChar c s.data).map String.mk

/-- Python `s.startswith(p)`. -/
def pyStartswith (s p : String) : Bool :=
  p.data.isPrefixOf s.data

/-- Python `s.endswith(p)`. -/
def pyEndswith (s p : String) : Bool :=
  p.data.isSuffixOf s.data

/-- Python `s.removeprefix(p)`: strips `p` from the start when present. -/
def pyRemoveStart (s p : String) : String :=
  if pyStartswith s p then String.mk (s.data.drop p.data.length) else s

/-- Python `s.removesuffix(p)`: strips `p` from the end when present. -/
def pyRemoveEnd (s p : String) : String :=
  if pyEndswith s p then String.mk (s.data.take (s.data.length - p.data.length)) else s

/-- Python `l[0]`.  In the handler the list is a `split` result, which is
never empty, so the default is never reached. -/
def pyIdxFirst (l : List String) : String := l.headD ""

/-- Python `l[-1]`.  In the handler the list is a `split` result, which is
never empty, so the default is never reached. -/
def pyIdxLast (l : List String) : String := l.getLastD ""

/-- Python `l[-2]`, i.e. `l[len(l) - 2]`.  Python raises `IndexError` when
the index is out of range; at the one call site the `startswith` guard
guarantees at least four segments, so the default is never reached. -/
def pyIdxLast2 (l : List String) : String := l.getD (l.length - 2) ""

/-! ## CI status checker (src/app/github_utils.py) -/

/-- One GitHub check run on a commit: its name, status and conclusion. -/
structure CheckRun where
  name : String
  status : String
  conclusion : String
deriving DecidableEq, Repr

/-- The inner `for check_run in matched_runs` loop of
`commit_passed_checks`: returns `False` at the first matched run that is
not simultaneously `"completed"` and `"success"`. -/
def runsAllPass : List CheckRun → Bool
  | [] => true
  | r :: rest =>
    if r.status == "completed" && r.conclusion == "success" then runsAllPass rest
    else false

/-- The outer `for check_regex in checks_regex` loop of
`commit_passed_checks`, over the runs returned by the provider.
`reMatch p n` models Python `re.match(p, n)` (host regex engine,
anchored at the start of `n`). -/
def checksLoop (reMatch : String → String → Bool) (runs : List CheckRun) :
    List String → Bool
  | [] => true
  | check_regex :: rest =>
    let matched_runs := runs.filter (fun r => reMatch check_regex r.name)
    if runsAllPass matched_runs then checksLoop reMatch runs rest
    else false

/-- `GithubService.commit_passed_checks`.  `ghRuns repo sha` models
`get_repo(repo).get_commit(sha).get_check_runs()`: the check runs the
provider reports for that commit, in provider order. -/
def commit_passed_checks (reMatch : String → String → Bool)
    (ghRuns : String → String → List CheckRun)
    (checks_regex : List String) (repo : String) (commit_sha : String) : Bool :=
  checksLoop reMatch (ghRuns repo commit_sha) checks_regex

/-! ## Persistence store (src/app/state.py) -/

/-- One document of the `application` table. -/
structure AppRecord where
  application_set_name : String
  repo : String
  branch : String
  state : StateMap
  last_known_good_sha : Option String
deriving DecidableEq, Repr

/-- The `application` table of the TinyDB database, in insertion order. -/
abbrev Store := List AppRecord

/-- The exceptions raised by `DatabaseService` (all are generic Python
`Exception`s distinguished by message; the spec names them as below). -/
inductive DbError where
  | alreadyExists
  | notFound
  | multipleRecordsFound
deriving DecidableEq, Repr

/-- The `Query().fragment(...)` condition on the three identity-key
fields. -/
def matchesKey (r : AppRecord) (application_set_name repo branch : String) : Bool :=
  r.application_set_name == application_set_name
    && r.repo == repo && r.branch == branch

/-- `table.search(fragment(key))`: all documents matching the identity
key, in table order. -/
def searchKey (store : Store) (application_set_name repo branch : String) :
    List AppRecord :=
  store.filter (fun r => matchesKey r application_set_name repo branch)

/-- `DatabaseService.create_application`: raises `AlreadyExists` when a
document with the key exists, otherwise inserts and returns the new doc
id (TinyDB ids are positive; the value is otherwise unused). -/
def create_application (store : Store) (application_set_name repo branch : String)
    (state : StateMap) (last_known_good_sha : Option String) :
    Store × Except DbError Nat :=
  let items := searchKey store application_set_name repo branch
  if items.length > 0 then
    (store, .error .alreadyExists)
  else
    (store ++ [⟨application_set_name, repo, branch, state, last_known_good_sha⟩],
     .ok (store.length + 1))

/-- `DatabaseService.get_application`: `None` on zero matches,
`MultipleRecordsFound` on more than one, otherwise `items[0]`. -/
def get_application (store : Store) (application_set_name repo branch : String) :
    Except DbError (Option AppRecord) :=
  let items := searchKey store application_set_name repo branch
  if items.length == 0 then .ok none
  else if items.length > 1 then .error .multipleRecordsFound
  else .ok items.head?

/-- The doc ids TinyDB's `table.update` returns: ids (1-based table
positions here) of every document matching the condition. -/
def updatedDocIds (application_set_name repo branch : String) :
    Nat → Store → List Nat
  | _, [] => []
  | i, r :: rs =>
    if matchesKey r application_set_name repo branch then
      i :: updatedDocIds application_set_name repo branch (i + 1) rs
    else
      updatedDocIds application_set_name repo branch (i + 1) rs

/-- The table after TinyDB's `table.update(fields, cond)`: the `state`
and `last_known_good_sha` fields of every matching document are
replaced. -/
def applyUpdate (state : StateMap) (last_known_good_sha : Option String)
    (application_set_name repo branch : String) (store : Store) : Store :=
  store.map (fun r =>
    if matchesKey r application_set_name repo branch then
      { r with state := state, last_known_good_sha := last_known_good_sha }
    else r)

/-- `DatabaseService.update_application`: TinyDB's `update` first mutates
every matching document and returns their ids; `NotFound` is raised on
zero ids and `MultipleRecordsFound` on more than one, after the
mutation.  The mutated table is returned in either case. -/
def update_application (store : Store) (application_set_name repo branch : String)
    (state : StateMap) (last_known_good_sha : Option String) :
    Store × Except DbError Nat :=
  let items := updatedDocIds application_set_name repo branch 1 store
  let store2 := applyUpdate state last_known_good_sha application_set_name repo branch store
  match items with
  | [] => (store2, .error .notFound)
  | [i] => (store2, .ok i)
  | _ => (store2, .error .multipleRecordsFound)

/-! ## Request and response model (src/app/main.py) -/

/-- `ParamsScmData`: the declared fields plus pydantic `extra="allow"`
passthrough fields in insertion order. -/
structure ParamsScmData where
  organization : String
  repository : String
  branch : String
  sha : String
  extra : StateMap
deriving DecidableEq, Repr

/-- `ParamsPrData`: the declared fields plus pydantic `extra="allow"`
passthrough fields in insertion order. -/
structure ParamsPrData where
  repoURL : String
  branch : String
  head_sha : String
  extra : StateMap
deriving DecidableEq, Repr

/-- `ParamsScmData.model_dump()`: declared fields in declaration order,
then the passthrough fields. -/
def ParamsScmData.model_dump (d : ParamsScmData) : StateMap :=
  [("organization", .str d.organization), ("repository", .str d.repository),
   ("branch", .str d.branch), ("sha", .str d.sha)] ++ d.extra

/-- `ParamsPrData.model_dump()`: declared fields in declaration order,
then the passthrough fields. -/
def ParamsPrData.model_dump (d : ParamsPrData) : StateMap :=
  [("repoURL", .str d.repoURL), ("branch", .str d.branch),
   ("head_sha", .str d.head_sha)] ++ d.extra

/-- The validated `data` field of `Params`: the `sourceGeneratorType`
discriminator (`"scm"` or `"pr"`) is the constructor tag, and the data
has been validated against the corresponding schema. -/
inductive ParamsData where
  | scm (d : ParamsScmData)
  | pr (d : ParamsPrData)
deriving DecidableEq, Repr

/-- `Params`: `checks_regex` and the validated variant `data`. -/
structure Params where
  checks_regex : List String
  data : ParamsData
deriving DecidableEq, Repr

/-- `Input`. -/
structure Input where
  parameters : Params
deriving DecidableEq, Repr

/-- `GetParamsRequest`. -/
structure GetParamsRequest where
  applicationSetName : String
  input : Input
deriving DecidableEq, Repr

/-- The `output` object of the response. -/
structure Output where
  parameters : List StateMap
deriving DecidableEq, Repr

/-- `GetParamsResponse`. -/
structure GetParamsResponse where
  output : Output
deriving DecidableEq, Repr

/-- The coordinates and state the handler derives from the request body
(lines 117-138 of src/app/main.py). -/
structure Derived where
  organization : String
  repository : String
  branch : String
  sha : String
  state : StateMap
deriving DecidableEq, Repr

/-- Variant normalization of `process_argocd_param`: the scm branch reads
the fields directly; the pr branch parses `repoURL` (HTTPS GitHub URLs by
slash-segments, otherwise by stripping the `git@github.com:` prefix) and
takes `head_sha`.  `state` is `d.model_dump()` in both branches. -/
def deriveParams : ParamsData → Derived
  | .scm d => ⟨d.organization, d.repository, d.branch, d.sha, d.model_dump⟩
  | .pr d =>
    let p :=
      if pyStartswith d.repoURL "https://github.com/" then
        (pyIdxLast2 (pySplit d.repoURL '/'),
         pyRemoveEnd (pyIdxLast (pySplit d.repoURL '/')) ".git")
      else
        (pyIdxFirst (pySplit (pyRemoveStart d.repoURL "git@github.com:") '/'),
         pyRemoveEnd (pyIdxLast (pySplit d.repoURL '/')) ".git")
    ⟨p.1, p.2, d.branch, d.head_sha, d.model_dump⟩

/-- The fingerprint `"+".join([sha, *checks_regex])` (line 140 of
src/app/main.py). -/
def sha_check_fingerprint (sha : String) (checks_regex : List String) : String :=
  String.intercalate "+" (sha :: checks_regex)

/-- The cache-hit condition (lines 148-151 of src/app/main.py):
`application_data is not None and
application_data["last_known_good_sha"] == sha_check_fingerprint`
(a stored `None` never equals a string in Python). -/
def isCacheHit (application_data : Option AppRecord) (fp : String) : Bool :=
  match application_data with
  | some a => a.last_known_good_sha == some fp
  | none => false

/-- The handler `process_argocd_param`.  It returns the final state of
the store together with either the response or the propagated store
error; `reMatch` and `ghRuns` instantiate the GitHub service as in
`commit_passed_checks`. -/
def process_argocd_param (reMatch : String → String → Bool)
    (ghRuns : String → String → List CheckRun)
    (store : Store) (request : GetParamsRequest) :
    Store × Except DbError GetParamsResponse :=
  let application_set_name := request.applicationSetName
  let checks_regex := request.input.parameters.checks_regex
  let dv := deriveParams request.input.parameters.data
  let fp := sha_check_fingerprint dv.sha checks_regex
  match get_application store application_set_name dv.repository dv.branch with
  | .error e => (store, .error e)
  | .ok application_data =>
    if isCacheHit application_data fp then
      (store, .ok ⟨⟨[dv.state]⟩⟩)
    else
      let checks_result := commit_passed_checks reMatch ghRuns checks_regex
        (dv.organization ++ "/" ++ dv.repository) dv.sha
      if checks_result then
        match application_data with
        | none =>
          let res := create_application store application_set_name dv.repository
            dv.branch dv.state (some fp)
          match res.2 with
          | .ok _ => (res.1, .ok ⟨⟨[dv.state]⟩⟩)
          | .error e => (res.1, .error e)
        | some _ =>
          let res := update_application store application_set_name dv.repository
            dv.branch dv.state (some fp)
          match res.2 with
          | .ok _ => (res.1, .ok ⟨⟨[dv.state]⟩⟩)
          | .error e => (res.1, .error e)
      else
        match application_data with
        | none => (store, .ok ⟨⟨[]⟩⟩)
        | some a => (store, .ok ⟨⟨[a.state]⟩⟩)

/-! ## Helper lemmas -/

theorem runsAllPass_iff (l : List CheckRun) :
    runsAllPass l = true ↔
      ∀ r ∈ l, r.status = "completed" ∧ r.conclusion = "success" := by
  induction l with
  | nil => simp [runsAllPass]
  | cons r rest ih =>
    rw [runsAllPass]
    cases h : (r.status == "completed" && r.conclusion == "success") with
    | true =>
      rw [if_pos rfl]
      simp only [Bool.and_eq_true, beq_iff_eq] at h
      simp [ih, h]
    | false =>
      rw [if_neg (by simp)]
      constructor
      · intro hfalse; exact absurd hfalse (by simp)
      · intro hall
        have h2 := hall r (List.mem_cons_self _ _)
        have h3 : (r.status == "completed" && r.conclusion == "success") = true := by
          simp [h2.1, h2.2]
        rw [h3] at h; exact absurd h (by simp)

theorem checksLoop_iff (reMatch : String → String → Bool) (runs : List CheckRun)
    (ps : List String) :
    checksLoop reMatch runs ps = true ↔
      ∀ p ∈ ps, ∀ r ∈ runs, reMatch p r.name = true →
        r.status = "completed" ∧ r.conclusion = "success" := by
  induction ps with
  | nil => simp [checksLoop]
  | cons p rest ih =>
    rw [checksLoop]
    cases h : runsAllPass (runs.filter (fun r => reMatch p r.name)) with
    | true =>
      rw [if_pos rfl]
      rw [runsAllPass_iff] at h
      simp only [List.mem_filter] at h
      constructor
      · intro hrest
        intro q hq r hr hm
        rcases List.mem_cons.mp hq with rfl | hq'
        · exact h r ⟨hr, hm⟩
        · exact (ih.mp hrest) q hq' r hr hm
      · intro hall
        exact ih.mpr fun q hq r hr hm => hall q (List.mem_cons_of_mem _ hq) r hr hm
    | false =>
      rw [if_neg (by simp)]
      constructor
      · intro hfalse; exact absurd hfalse (by simp)
      · intro hall
        have : runsAllPass (runs.filter (fun r => reMatch p r.name)) = true := by
          rw [runsAllPass_iff]
          intro r hr
          have hr' := List.mem_filter.mp hr
          exact hall p (List.mem_cons_self _ _) r hr'.1 hr'.2
        rw [this] at h; exact absurd h (by simp)

theorem commit_passed_checks_iff (reMatch : String → String → Bool)
    (ghRuns : String → String → List CheckRun)
    (checks_regex : List String) (repo commit_sha : String) :
    commit_passed_checks reMatch ghRuns checks_regex repo commit_sha = true ↔
      ∀ p ∈ checks_regex, ∀ r ∈ ghRuns repo commit_sha, reMatch p r.name = true →
        r.status = "completed" ∧ r.conclusion = "success" := by
  exact checksLoop_iff reMatch (ghRuns repo commit_sha) checks_regex

theorem get_application_ok_none (store : Store) (asn repo branch : String)
    (h : searchKey store asn repo branch = []) :
    get_application store asn repo branch = .ok none := by
  simp [get_application, h]

theorem get_application_ok_none_inv (store : Store) (asn repo branch : String)
    (h : get_application store asn repo branch = .ok none) :
    searchKey store asn repo branch = [] := by
  unfold get_application at h
  set items := searchKey store asn repo branch with hitems
  by_cases h0 : items.length = 0
  · exact List.length_eq_zero.mp h0
  · rw [if_neg (by simpa using h0)] at h
    by_cases h1 : items.length > 1
    · rw [if_pos (by simpa using h1)] at h
      exact absurd h (by simp)
    · rw [if_neg (by simpa using h1)] at h
      have hlen : items.length = 1 := by omega
      obtain ⟨a, ha⟩ := List.length_eq_one.mp hlen
      rw [ha] at h
      simp at h

theorem get_application_ok_some_inv (store : Store) (asn repo branch : String)
    (a : AppRecord) (h : get_application store asn repo branch = .ok (some a)) :
    searchKey store asn repo branch = [a] := by
  unfold get_application at h
  set items := searchKey store asn repo branch with hitems
  by_cases h0 : items.length = 0
  · rw [if_pos (by simpa using h0)] at h
    simp at h
  · rw [if_neg (by simpa using h0)] at h
    by_cases h1 : items.length > 1
    · rw [if_pos (by simpa using h1)] at h
      exact absurd h (by simp)
    · rw [if_neg (by simpa using h1)] at h
      have hlen : items.length = 1 := by omega
      obtain ⟨b, hb⟩ := List.length_eq_one.mp hlen
      rw [hb] at h
      simp at h
      rw [hb, h]

theorem updatedDocIds_length (asn repo branch : String) (store : Store) :
    ∀ i, (updatedDocIds asn repo branch i store).length =
      (searchKey store asn repo branch).length := by
  induction store with
  | nil => intro i; simp [updatedDocIds, searchKey]
  | cons r rs ih =>
    intro i
    rw [updatedDocIds]
    cases h : matchesKey r asn repo branch with
    | true => simp [searchKey, List.filter_cons, h, ih]
    | false => simp [searchKey, List.filter_cons, h, ih (i + 1)]

theorem create_application_of_absent (store : Store) (asn repo branch : String)
    (state : StateMap) (fp : Option String)
    (h : searchKey store asn repo branch = []) :
    create_application store asn repo branch state fp =
      (store ++ [⟨asn, repo, branch, state, fp⟩], .ok (store.length + 1)) := by
  simp [create_application, h]

theorem update_application_of_single (store : Store) (asn repo branch : String)
    (state : StateMap) (fp : Option String) (a : AppRecord)
    (h : searchKey store asn repo branch = [a]) :
    ∃ j, update_application store asn repo branch state fp =
      (applyUpdate state fp asn repo branch store, .ok j) := by
  have hlen : (updatedDocIds asn repo branch 1 store).length = 1 := by
    rw [updatedDocIds_length, h]
    rfl
  obtain ⟨j, hj⟩ := List.length_eq_one.mp hlen
  exact ⟨j, by rw [update_application, hj]⟩

/-! ## Claim C10 -/

/-- C10: for an empty `checks_regex` list, `commit_passed_checks` returns
`true` for every repository and commit SHA (the pattern loop is vacuous),
and the fingerprint of a request with no required check patterns is the
bare SHA. -/
theorem C10_empty_checks_always_pass (reMatch : String → String → Bool)
    (ghRuns : String → String → List CheckRun) (repo commit_sha : String) :
    commit_passed_checks reMatch ghRuns [] repo commit_sha = true ∧
      sha_check_fingerprint commit_sha [] = commit_sha :=
  ⟨rfl, rfl⟩

/-! ## Claim C9 -/

/-- A stored state distinct from any current request state. -/
def c9StoredState : StateMap := [("this_is", .str "old_state")]

/-- A store whose single record carries the fingerprint produced by
sha `"a+b"` with no check patterns. -/
def c9Store : Store := [⟨"as", "r", "b", c9StoredState, some "a+b"⟩]

/-- A request with sha `"a"` and check pattern list `["b"]`: a different
commit SHA and check list, yet the same fingerprint `"a+b"`. -/
def c9Request : GetParamsRequest := ⟨"as", ⟨⟨["b"], .scm ⟨"o", "r", "b", "a", []⟩⟩⟩⟩

/-- C9: the fingerprint `"+".join([sha, *checks_regex])` is not
injective: `("a+b", [])` and `("a", ["b"])` are distinct inputs with
equal fingerprints, and the cache-hit comparison succeeds for a request
(sha `"a"`, checks `["b"]`) against a record whose fingerprint was
produced by sha `"a+b"` with no patterns: the handler returns the current
state without consulting the CI checker or mutating the store. -/
theorem C9_fingerprint_not_injective :
    sha_check_fingerprint "a+b" [] = sha_check_fingerprint "a" ["b"] ∧
      ("a+b", ([] : List String)) ≠ ("a", ["b"]) ∧
      ∀ (reMatch : String → String → Bool)
        (ghRuns : String → String → List CheckRun),
        process_argocd_param reMatch ghRuns c9Store c9Request =
          (c9Store, .ok ⟨⟨[(deriveParams c9Request.input.parameters.data).state]⟩⟩) := by
  refine ⟨rfl, by decide, ?_⟩
  intro reMatch ghRuns
  rfl

/-! ## Claim C4 -/

/-- C4: `commit_passed_checks` returns `true` iff every check run on the
commit whose name matches one of the patterns has status `"completed"`
and conclusion `"success"` (a pattern with zero matching runs is
vacuously passed), and the result is `false` for any pattern list
containing a pattern with a failing matched run, whatever the
surrounding patterns are (short-circuit evaluation never rescues a
failure). -/
theorem C4_commit_passed_checks_correct (reMatch : String → String → Bool)
    (ghRuns : String → String → List CheckRun)
    (checks_regex : List String) (repo commit_sha : String) :
    (commit_passed_checks reMatch ghRuns checks_regex repo commit_sha = true ↔
      ∀ p ∈ checks_regex, ∀ r ∈ ghRuns repo commit_sha, reMatch p r.name = true →
        r.status = "completed" ∧ r.conclusion = "success") ∧
    (∀ ps₁ p ps₂,
      (∃ r ∈ ghRuns repo commit_sha, reMatch p r.name = true ∧
        ¬(r.status = "completed" ∧ r.conclusion = "success")) →
      commit_passed_checks reMatch ghRuns (ps₁ ++ p :: ps₂) repo commit_sha = false) := by
  refine ⟨commit_passed_checks_iff reMatch ghRuns checks_regex repo commit_sha, ?_⟩
  rintro ps₁ p ps₂ ⟨r, hr, hm, hfail⟩
  cases h : commit_passed_checks reMatch ghRuns (ps₁ ++ p :: ps₂) repo commit_sha with
  | false => rfl
  | true =>
    have := (commit_passed_checks_iff reMatch ghRuns (ps₁ ++ p :: ps₂) repo
      commit_sha).mp h p (by simp) r hr hm
    exact absurd this hfail

/-- A concrete matcher (literal name equality) for the C4 witness. -/
def c4ReMatch : String → String → Bool := fun p n => p == n

/-- A concrete check-run listing for the C4 witness: a single run named
`build` that completed without success. -/
def c4GhRuns : String → String → List CheckRun :=
  fun _ _ => [⟨"build", "completed", "neutral"⟩]

theorem C4_commit_passed_checks_correct_witness :
    commit_passed_checks c4ReMatch c4GhRuns (["x"] ++ "build" :: ["y"]) "o/r" "s" =
      false :=
  (C4_commit_passed_checks_correct c4ReMatch c4GhRuns ["x", "build", "y"] "o/r"
    "s").2 ["x"] "build" ["y"]
    ⟨⟨"build", "completed", "neutral"⟩, by decide, by decide, by decide⟩

/-! ## Claim C1 -/

/-- C1: on a cache hit (a record exists for the identity key and its
stored fingerprint equals the fingerprint computed from the current
request), the handler returns the current request's derived state as the
single output parameter, for every instantiation of the CI checker (so
the checker is never consulted), and leaves the store unchanged. -/
theorem C1_cache_hit_returns_current_state (reMatch : String → String → Bool)
    (ghRuns : String → String → List CheckRun)
    (store : Store) (request : GetParamsRequest) (a : AppRecord)
    (hget : get_application store request.applicationSetName
        (deriveParams request.input.parameters.data).repository
        (deriveParams request.input.parameters.data).branch = .ok (some a))
    (hfp : a.last_known_good_sha = some (sha_check_fingerprint
        (deriveParams request.input.parameters.data).sha
        request.input.parameters.checks_regex)) :
    process_argocd_param reMatch ghRuns store request =
      (store, .ok ⟨⟨[(deriveParams request.input.parameters.data).state]⟩⟩) := by
  simp only [process_argocd_param]
  rw [hget]
  simp [isCacheHit, hfp]

/-- The literal-equality matcher used by concrete witnesses. -/
def litMatch : String → String → Bool := fun p n => p == n

/-- A provider reporting no check runs, used by concrete witnesses. -/
def noRuns : String → String → List CheckRun := fun _ _ => []

/-- The stored record of the C1 witness store. -/
def c1Record : AppRecord := ⟨"as", "r", "b", [("this_is", .str "old_state")], some "sha1+c"⟩

/-- A one-record store whose fingerprint matches the C1 witness request. -/
def c1Store : Store := [c1Record]

/-- An scm request with sha `"sha1"` and checks `["c"]`, fingerprint
`"sha1+c"`. -/
def c1Request : GetParamsRequest := ⟨"as", ⟨⟨["c"], .scm ⟨"o", "r", "b", "sha1", []⟩⟩⟩⟩

theorem C1_cache_hit_returns_current_state_witness :
    process_argocd_param litMatch noRuns c1Store c1Request =
      (c1Store, .ok ⟨⟨[(deriveParams c1Request.input.parameters.data).state]⟩⟩) :=
  C1_cache_hit_returns_current_state litMatch noRuns c1Store c1Request c1Record
    rfl rfl

/-! ## Claim C2 -/

/-- C2: on a cache miss where the CI checker reports success, the handler
creates a record with the current state and fingerprint when none
existed, updates the existing record to the current state and
fingerprint when one existed, and in both cases answers with the current
request's derived state as the single output parameter. -/
theorem C2_checks_pass_upserts (reMatch : String → String → Bool)
    (ghRuns : String → String → List CheckRun)
    (store : Store) (request : GetParamsRequest) (appData : Option AppRecord)
    (hget : get_application store request.applicationSetName
        (deriveParams request.input.parameters.data).repository
        (deriveParams request.input.parameters.data).branch = .ok appData)
    (hmiss : isCacheHit appData (sha_check_fingerprint
        (deriveParams request.input.parameters.data).sha
        request.input.parameters.checks_regex) = false)
    (hchecks : commit_passed_checks reMatch ghRuns
        request.input.parameters.checks_regex
        ((deriveParams request.input.parameters.data).organization ++ "/" ++
          (deriveParams request.input.parameters.data).repository)
        (deriveParams request.input.parameters.data).sha = true) :
    (appData = none →
      process_argocd_param reMatch ghRuns store request =
        (store ++ [⟨request.applicationSetName,
            (deriveParams request.input.parameters.data).repository,
            (deriveParams request.input.parameters.data).branch,
            (deriveParams request.input.parameters.data).state,
            some (sha_check_fingerprint
              (deriveParams request.input.parameters.data).sha
              request.input.parameters.checks_regex)⟩],
         .ok ⟨⟨[(deriveParams request.input.parameters.data).state]⟩⟩)) ∧
    (∀ a, appData = some a →
      process_argocd_param reMatch ghRuns store request =
        (applyUpdate (deriveParams request.input.parameters.data).state
            (some (sha_check_fingerprint
              (deriveParams request.input.parameters.data).sha
              request.input.parameters.checks_regex))
            request.applicationSetName
            (deriveParams request.input.parameters.data).repository
            (deriveParams request.input.parameters.data).branch store,
         .ok ⟨⟨[(deriveParams request.input.parameters.data).state]⟩⟩)) := by
  constructor
  · rintro rfl
    have hempty := get_application_ok_none_inv _ _ _ _ hget
    have hcreate := create_application_of_absent store request.applicationSetName
      (deriveParams request.input.parameters.data).repository
      (deriveParams request.input.parameters.data).branch
      (deriveParams request.input.parameters.data).state
      (some (sha_check_fingerprint
        (deriveParams request.input.parameters.data).sha
        request.input.parameters.checks_regex)) hempty
    simp only [process_argocd_param]
    rw [hget]
    simp [isCacheHit, hchecks, hcreate]
  · rintro a rfl
    have hsingle := get_application_ok_some_inv _ _ _ _ _ hget
    obtain ⟨j, hupd⟩ := update_application_of_single store
      request.applicationSetName
      (deriveParams request.input.parameters.data).repository
      (deriveParams request.input.parameters.data).branch
      (deriveParams request.input.parameters.data).state
      (some (sha_check_fingerprint
        (deriveParams request.input.parameters.data).sha
        request.input.parameters.checks_regex)) a hsingle
    simp only [process_argocd_param]
    rw [hget]
    simp only [Bool.false_eq_true, if_neg, hmiss, if_false]
    simp [hchecks, hupd]

/-- An scm request with sha `"sha2"` and checks `["c"]` for the C2
witness. -/
def c2Request : GetParamsRequest := ⟨"as", ⟨⟨["c"], .scm ⟨"o", "r", "b", "sha2", []⟩⟩⟩⟩

theorem C2_checks_pass_upserts_witness :
    process_argocd_param litMatch noRuns ([] : Store) c2Request =
      (([] : Store) ++ [⟨"as", "r", "b",
          (deriveParams c2Request.input.parameters.data).state,
          some (sha_check_fingerprint "sha2" ["c"])⟩],
       .ok ⟨⟨[(deriveParams c2Request.input.parameters.data).state]⟩⟩) :=
  (C2_checks_pass_upserts litMatch noRuns [] c2Request none rfl rfl rfl).1 rfl

/-! ## Claim C3 -/

/-- C3: on a cache miss where the CI checker reports failure, the store
is left unchanged, and the response carries no parameters when no record
existed for the identity key and exactly the stored record's state when
one existed. -/
theorem C3_checks_fail_fallback (reMatch : String → String → Bool)
    (ghRuns : String → String → List CheckRun)
    (store : Store) (request : GetParamsRequest) (appData : Option AppRecord)
    (hget : get_application store request.applicationSetName
        (deriveParams request.input.parameters.data).repository
        (deriveParams request.input.parameters.data).branch = .ok appData)
    (hmiss : isCacheHit appData (sha_check_fingerprint
        (deriveParams request.input.parameters.data).sha
        request.input.parameters.checks_regex) = false)
    (hchecks : commit_passed_checks reMatch ghRuns
        request.input.parameters.checks_regex
        ((deriveParams request.input.parameters.data).organization ++ "/" ++
          (deriveParams request.input.parameters.data).repository)
        (deriveParams request.input.parameters.data).sha = false) :
    (appData = none →
      process_argocd_param reMatch ghRuns store request =
        (store, .ok ⟨⟨[]⟩⟩)) ∧
    (∀ a, appData = some a →
      process_argocd_param reMatch ghRuns store request =
        (store, .ok ⟨⟨[a.state]⟩⟩)) := by
  constructor
  · rintro rfl
    simp only [process_argocd_param]
    rw [hget]
    simp [isCacheHit, hchecks]
  · rintro a rfl
    simp only [process_argocd_param]
    rw [hget]
    simp only [Bool.false_eq_true, if_neg, hmiss, if_false]
    simp [hchecks]

/-- A provider whose single check run named `c` concluded `failure`,
used by the C3 witness. -/
def c3FailRuns : String → String → List CheckRun :=
  fun _ _ => [⟨"c", "completed", "failure"⟩]

/-- The stored record of the C3 witness store (fingerprint of an older
sha). -/
def c3Record : AppRecord := ⟨"as", "r", "b", [("this_is", .str "old_state")], some "old+c"⟩

theorem C3_checks_fail_fallback_witness :
    process_argocd_param litMatch c3FailRuns [c3Record] c1Request =
      ([c3Record], .ok ⟨⟨[c3Record.state]⟩⟩) :=
  (C3_checks_fail_fallback litMatch c3FailRuns [c3Record] c1Request
    (some c3Record) rfl rfl rfl).2 c3Record rfl

/-! ## More store helper lemmas -/

theorem exists_match_iff_searchKey_ne_nil (store : Store) (asn repo branch : String) :
    (∃ r ∈ store, matchesKey r asn repo branch = true) ↔
      searchKey store asn repo branch ≠ [] := by
  constructor
  · rintro ⟨r, hr, hm⟩ hnil
    have : r ∈ searchKey store asn repo branch := List.mem_filter.mpr ⟨hr, hm⟩
    rw [hnil] at this
    exact absurd this (List.not_mem_nil r)
  · intro hne
    obtain ⟨r, hr⟩ := List.exists_mem_of_ne_nil _ hne
    have h := List.mem_filter.mp hr
    exact ⟨r, h.1, h.2⟩

theorem update_application_fst (store : Store) (asn repo branch : String)
    (state : StateMap) (fp : Option String) :
    (update_application store asn repo branch state fp).1 =
      applyUpdate state fp asn repo branch store := by
  rcases h : updatedDocIds asn repo branch 1 store with _ | ⟨j, _ | ⟨k, rest⟩⟩ <;>
    simp [update_application, h]

theorem update_application_of_multiple (store : Store) (asn repo branch : String)
    (state : StateMap) (fp : Option String)
    (h : 1 < (searchKey store asn repo branch).length) :
    (update_application store asn repo branch state fp).2 =
      .error .multipleRecordsFound := by
  rcases hitem : updatedDocIds asn repo branch 1 store with _ | ⟨j, _ | ⟨k, rest⟩⟩
  · have := updatedDocIds_length asn repo branch store 1
    rw [hitem] at this
    simp at this
    omega
  · have := updatedDocIds_length asn repo branch store 1
    rw [hitem] at this
    simp at this
    omega
  · simp [update_application, hitem]

/-! ## Claim C7 -/

/-- C7: the store operations fail exactly per their contracts:
`create_application` errors (`AlreadyExists`) iff a record with the
identity key exists and never raises anything else; `update_application`
errors (`NotFound`) iff no record exists for the key and errors
(`MultipleRecordsFound`) when more than one matches; `get_application`
errors (`MultipleRecordsFound`) when more than one record matches and
otherwise returns the at-most-one matching record; and a lookup error is
propagated by the handler, not recovered. -/
theorem C7_store_error_contracts (store : Store) (asn repo branch : String)
    (state : StateMap) (fp : Option String) :
    ((create_application store asn repo branch state fp).2 =
        .error .alreadyExists ↔ ∃ r ∈ store, matchesKey r asn repo branch = true) ∧
    (∀ e, (create_application store asn repo branch state fp).2 = .error e →
      e = .alreadyExists) ∧
    ((update_application store asn repo branch state fp).2 = .error .notFound ↔
      ¬ ∃ r ∈ store, matchesKey r asn repo branch = true) ∧
    (1 < (searchKey store asn repo branch).length →
      (update_application store asn repo branch state fp).2 =
        .error .multipleRecordsFound) ∧
    (1 < (searchKey store asn repo branch).length →
      get_application store asn repo branch = .error .multipleRecordsFound) ∧
    ((searchKey store asn repo branch).length ≤ 1 →
      get_application store asn repo branch =
        .ok (searchKey store asn repo branch).head?) ∧
    (∀ (reMatch : String → String → Bool)
        (ghRuns : String → String → List CheckRun)
        (request : GetParamsRequest) (e : DbError),
      get_application store request.applicationSetName
          (deriveParams request.input.parameters.data).repository
          (deriveParams request.input.parameters.data).branch = .error e →
      process_argocd_param reMatch ghRuns store request = (store, .error e)) := by
  refine ⟨?_, ?_, ?_, ?_, ?_, ?_, ?_⟩
  · by_cases h : (searchKey store asn repo branch).length > 0
    · constructor
      · intro _
        apply (exists_match_iff_searchKey_ne_nil store asn repo branch).mpr
        intro hnil
        rw [hnil] at h
        simp at h
      · intro _
        simp [create_application, h]
    · constructor
      · intro habs
        simp [create_application, h] at habs
      · intro hexr
        have hne := (exists_match_iff_searchKey_ne_nil store asn repo branch).mp hexr
        exact absurd (List.length_pos.mpr hne) h
  · intro e he
    by_cases h : (searchKey store asn repo branch).length > 0
    · simp [create_application, h] at he
      exact he.symm
    · simp [create_application, h] at he
  · constructor
    · intro hupd hexr
      have hne := (exists_match_iff_searchKey_ne_nil store asn repo branch).mp hexr
      rcases hitem : updatedDocIds asn repo branch 1 store with _ | ⟨j, _ | ⟨k, rest⟩⟩
      · have := updatedDocIds_length asn repo branch store 1
        rw [hitem] at this
        exact hne (List.length_eq_zero.mp this.symm)
      · simp [update_application, hitem] at hupd
      · simp [update_application, hitem] at hupd
    · intro hnex
      have hnil : searchKey store asn repo branch = [] := by
        by_contra hne
        exact hnex ((exists_match_iff_searchKey_ne_nil store asn repo branch).mpr hne)
      have hlen : (updatedDocIds asn repo branch 1 store).length = 0 := by
        rw [updatedDocIds_length, hnil]
        rfl
      have hitem := List.length_eq_zero.mp hlen
      simp [update_application, hitem]
  · exact update_application_of_multiple store asn repo branch state fp
  · intro h
    have h0 : ¬ (searchKey store asn repo branch).length = 0 := by omega
    simp [get_application, h0, h]
  · intro h
    by_cases h0 : (searchKey store asn repo branch).length = 0
    · have hnil := List.length_eq_zero.mp h0
      simp [get_application, hnil]
    · have h1 : ¬ (searchKey store asn repo branch).length > 1 := by omega
      simp [get_application, h0, h1]
  · intro reMatch ghRuns request e hget
    simp only [process_argocd_param]
    rw [hget]

theorem C7_store_error_contracts_witness :
    (update_application ([] : Store) "as" "r" "b" [] none).2 = .error .notFound :=
  (C7_store_error_contracts [] "as" "r" "b" [] none).2.2.1.mpr (by simp)

/-! ## Claim C8 -/

/-- C8: when more than one record matches the identity key,
`update_application` still applies the update to every matching record
(the returned table is the fully updated one) and only then reports the
`MultipleRecordsFound` error, so the store is mutated on that error
path. -/
theorem C8_update_on_multiple_mutates (store : Store) (asn repo branch : String)
    (state : StateMap) (fp : Option String)
    (h : 1 < (searchKey store asn repo branch).length) :
    (update_application store asn repo branch state fp).2 =
        .error .multipleRecordsFound ∧
    (update_application store asn repo branch state fp).1 =
      applyUpdate state fp asn repo branch store ∧
    ∀ r ∈ (update_application store asn repo branch state fp).1,
      matchesKey r asn repo branch = true →
        r.state = state ∧ r.last_known_good_sha = fp := by
  refine ⟨update_application_of_multiple store asn repo branch state fp h,
    update_application_fst store asn repo branch state fp, ?_⟩
  intro r hr hm
  rw [update_application_fst] at hr
  unfold applyUpdate at hr
  obtain ⟨r₀, hr₀, heq⟩ := List.mem_map.mp hr
  by_cases hm₀ : matchesKey r₀ asn repo branch = true
  · rw [if_pos hm₀] at heq
    rw [← heq]
    exact ⟨rfl, rfl⟩
  · rw [if_neg hm₀] at heq
    rw [← heq] at hm
    exact absurd hm hm₀

/-- A store holding two records with the same identity key (the
corruption scenario C8 is about). -/
def c8Store : Store := [⟨"as", "r", "b", [], none⟩, ⟨"as", "r", "b", [], none⟩]

theorem C8_update_on_multiple_mutates_witness :
    (update_application c8Store "as" "r" "b" [("k", .str "v")] (some "f")).2 =
        .error .multipleRecordsFound ∧
      (update_application c8Store "as" "r" "b" [("k", .str "v")] (some "f")).1 ≠
        c8Store :=
  ⟨(C8_update_on_multiple_mutates c8Store "as" "r" "b" [("k", .str "v")]
      (some "f") (by decide)).1,
    by decide⟩

/-! ## Split lemmas for URL parsing -/

theorem pySplitChar_ne_nil (c : Char) (l : List Char) : pySplitChar c l ≠ [] := by
  cases l with
  | nil => simp [pySplitChar]
  | cons x xs =>
    simp only [pySplitChar]
    by_cases h : x = c
    · simp [h]
    · rw [if_neg h]
      cases h2 : pySplitChar c xs <;> simp

theorem pySplitChar_append (c : Char) (l₁ l₂ : List Char) (h : c ∉ l₁) :
    pySplitChar c (l₁ ++ l₂) =
      (l₁ ++ (pySplitChar c l₂).headD []) :: (pySplitChar c l₂).tail := by
  induction l₁ with
  | nil =>
    cases h2 : pySplitChar c l₂ with
    | nil => exact absurd h2 (pySplitChar_ne_nil c l₂)
    | cons y ys => simp [h2]
  | cons x xs ih =>
    have hx : x ≠ c := fun hxc => h (hxc ▸ List.mem_cons_self x xs)
    have hxs : c ∉ xs := fun hc => h (List.mem_cons_of_mem x hc)
    simp only [List.cons_append, pySplitChar, List.append_eq]
    rw [ih hxs, if_neg hx]

theorem pySplitChar_cons_sep (c : Char) (l : List Char) :
    pySplitChar c (c :: l) = [] :: pySplitChar c l := by
  simp [pySplitChar]

theorem pySplitChar_sep (c : Char) (l₁ l₂ : List Char) (h : c ∉ l₁) :
    pySplitChar c (l₁ ++ c :: l₂) = l₁ :: pySplitChar c l₂ := by
  rw [pySplitChar_append c l₁ (c :: l₂) h, pySplitChar_cons_sep]
  simp

theorem pySplitChar_no_sep (c : Char) (l : List Char) (h : c ∉ l) :
    pySplitChar c l = [l] := by
  have h2 := pySplitChar_append c l [] h
  rw [List.append_nil] at h2
  simpa [pySplitChar] using h2

/-! ## URL parsing lemmas -/

theorem no_slash_git_tail (r : String) (hr : '/' ∉ r.data) :
    '/' ∉ r.data ++ ".git".data := by
  intro hc
  rcases List.mem_append.mp hc with h | h
  · exact hr h
  · exact absurd h (by decide)

theorem pyRemoveEnd_git (r : String) : pyRemoveEnd (r ++ ".git") ".git" = r := by
  unfold pyRemoveEnd
  rw [if_pos (by simp [pyEndswith])]
  have hdata : (r ++ ".git").data = r.data ++ ".git".data := by simp
  rw [hdata]
  have hlen : (r.data ++ ".git".data).length - ".git".data.length = r.data.length := by
    rw [List.length_append]
    omega
  rw [hlen, List.take_left]

theorem pyStartswith_https (o r : String) :
    pyStartswith ("https://github.com/" ++ o ++ "/" ++ r ++ ".git")
      "https://github.com/" = true := by
  unfold pyStartswith
  have hdata : ("https://github.com/" ++ o ++ "/" ++ r ++ ".git").data =
      "https://github.com/".data ++ ((o ++ "/" ++ r ++ ".git").data) := by
    simp [List.append_assoc]
  rw [hdata]
  simp

theorem pyStartswith_ssh_not_https (o r : String) :
    pyStartswith ("git@github.com:" ++ o ++ "/" ++ r ++ ".git")
      "https://github.com/" = false := by
  unfold pyStartswith
  have hdata : ("git@github.com:" ++ o ++ "/" ++ r ++ ".git").data =
      'g' :: ("it@github.com:".data ++ (o ++ "/" ++ r ++ ".git").data) := by
    have h1 : ("git@github.com:" ++ o ++ "/" ++ r ++ ".git").data =
        "git@github.com:".data ++ (o ++ "/" ++ r ++ ".git").data := by
      simp [List.append_assoc]
    rw [h1]
    rfl
  rw [hdata]
  rw [show "https://github.com/".data = 'h' :: "ttps://github.com/".data from rfl]
  simp [List.isPrefixOf]

theorem pySplit_https (o r : String) (ho : '/' ∉ o.data) (hr : '/' ∉ r.data) :
    pySplit ("https://github.com/" ++ o ++ "/" ++ r ++ ".git") '/' =
      ["https:", "", "github.com", o, r ++ ".git"] := by
  unfold pySplit
  have hdata : ("https://github.com/" ++ o ++ "/" ++ r ++ ".git").data =
      "https:".data ++ '/' :: ('/' :: ("github.com".data ++ '/' ::
        (o.data ++ '/' :: (r.data ++ ".git".data)))) := by
    have hlit : "https://github.com/".data =
        "https:".data ++ '/' :: ('/' :: ("github.com".data ++ ['/'])) := rfl
    have hslash : "/".data = ['/'] := rfl
    simp only [String.data_append, hlit, hslash, List.append_assoc,
      List.cons_append, List.singleton_append, List.nil_append]
  rw [hdata,
    pySplitChar_sep '/' "https:".data _ (by decide),
    pySplitChar_cons_sep,
    pySplitChar_sep '/' "github.com".data _ (by decide),
    pySplitChar_sep '/' o.data _ ho,
    pySplitChar_no_sep '/' _ (no_slash_git_tail r hr)]
  rfl

theorem pyRemoveStart_ssh (o r : String) :
    pyRemoveStart ("git@github.com:" ++ o ++ "/" ++ r ++ ".git")
      "git@github.com:" = o ++ "/" ++ r ++ ".git" := by
  unfold pyRemoveStart
  have hdata : ("git@github.com:" ++ o ++ "/" ++ r ++ ".git").data =
      "git@github.com:".data ++ (o ++ "/" ++ r ++ ".git").data := by
    simp [List.append_assoc]
  rw [if_pos (by unfold pyStartswith; rw [hdata]; simp)]
  rw [hdata, List.drop_left]

theorem pySplit_orepo (o r : String) (ho : '/' ∉ o.data) (hr : '/' ∉ r.data) :
    pySplit (o ++ "/" ++ r ++ ".git") '/' = [o, r ++ ".git"] := by
  unfold pySplit
  have hdata : (o ++ "/" ++ r ++ ".git").data =
      o.data ++ '/' :: (r.data ++ ".git".data) := by
    have hslash : "/".data = ['/'] := rfl
    simp only [String.data_append, hslash, List.append_assoc,
      List.singleton_append, List.cons_append, List.nil_append]
  rw [hdata, pySplitChar_sep '/' o.data _ ho,
    pySplitChar_no_sep '/' _ (no_slash_git_tail r hr)]
  rfl

theorem pySplit_ssh (o r : String) (ho : '/' ∉ o.data) (hr : '/' ∉ r.data) :
    pySplit ("git@github.com:" ++ o ++ "/" ++ r ++ ".git") '/' =
      [String.mk ("git@github.com:".data ++ o.data), r ++ ".git"] := by
  unfold pySplit
  have hdata : ("git@github.com:" ++ o ++ "/" ++ r ++ ".git").data =
      ("git@github.com:".data ++ o.data) ++ '/' :: (r.data ++ ".git".data) := by
    have hslash : "/".data = ['/'] := rfl
    simp only [String.data_append, hslash, List.append_assoc,
      List.singleton_append, List.cons_append, List.nil_append]
  have hpo : '/' ∉ "git@github.com:".data ++ o.data := by
    intro hc
    rcases List.mem_append.mp hc with h | h
    · exact absurd h (by decide)
    · exact ho h
  rw [hdata, pySplitChar_sep '/' _ _ hpo,
    pySplitChar_no_sep '/' _ (no_slash_git_tail r hr)]
  rfl

/-! ## Claim C5 -/

/-- C5: for pr requests the organization and repository derived from
`repoURL` follow the spec's parsing rules, and the HTTPS and SSH GitHub
forms of the same repository yield identical coordinates: for any
slash-free `o` and `r`, both `https://github.com/o/r.git` and
`git@github.com:o/r.git` derive organization `o` and repository `r`. -/
theorem C5_pr_url_parsing (o r branchVal shaVal : String) (extra : StateMap)
    (ho : '/' ∉ o.data) (hr : '/' ∉ r.data) :
    (deriveParams (.pr ⟨"https://github.com/" ++ o ++ "/" ++ r ++ ".git",
        branchVal, shaVal, extra⟩)).organization = o ∧
    (deriveParams (.pr ⟨"https://github.com/" ++ o ++ "/" ++ r ++ ".git",
        branchVal, shaVal, extra⟩)).repository = r ∧
    (deriveParams (.pr ⟨"git@github.com:" ++ o ++ "/" ++ r ++ ".git",
        branchVal, shaVal, extra⟩)).organization = o ∧
    (deriveParams (.pr ⟨"git@github.com:" ++ o ++ "/" ++ r ++ ".git",
        branchVal, shaVal, extra⟩)).repository = r := by
  refine ⟨?_, ?_, ?_, ?_⟩
  · simp only [deriveParams]
    rw [pyStartswith_https o r]
    simp only [if_true, pySplit_https o r ho hr]
    rfl
  · simp only [deriveParams]
    rw [pyStartswith_https o r]
    simp only [if_true, pySplit_https o r ho hr]
    show pyRemoveEnd (pyIdxLast ["https:", "", "github.com", o, r ++ ".git"]) ".git" = r
    show pyRemoveEnd (r ++ ".git") ".git" = r
    exact pyRemoveEnd_git r
  · simp only [deriveParams]
    rw [pyStartswith_ssh_not_https o r]
    simp only [Bool.false_eq_true, if_false, pyRemoveStart_ssh o r,
      pySplit_orepo o r ho hr]
    rfl
  · simp only [deriveParams]
    rw [pyStartswith_ssh_not_https o r]
    simp only [Bool.false_eq_true, if_false, pySplit_ssh o r ho hr]
    show pyRemoveEnd (r ++ ".git") ".git" = r
    exact pyRemoveEnd_git r

theorem C5_pr_url_parsing_witness :
    (deriveParams (.pr ⟨"https://github.com/" ++ "org" ++ "/" ++ "repo" ++ ".git",
        "main", "abc", []⟩)).organization = "org" ∧
    (deriveParams (.pr ⟨"https://github.com/" ++ "org" ++ "/" ++ "repo" ++ ".git",
        "main", "abc", []⟩)).repository = "repo" ∧
    (deriveParams (.pr ⟨"git@github.com:" ++ "org" ++ "/" ++ "repo" ++ ".git",
        "main", "abc", []⟩)).organization = "org" ∧
    (deriveParams (.pr ⟨"git@github.com:" ++ "org" ++ "/" ++ "repo" ++ ".git",
        "main", "abc", []⟩)).repository = "repo" :=
  C5_pr_url_parsing "org" "repo" "main" "abc" [] (by decide) (by decide)

/-! ## Claim C6 -/

/-- A concrete pr-variant data record with one passthrough field. -/
def c6PrData : ParamsPrData :=
  ⟨"https://github.com/org/repo.git", "main", "abc", [("labels", .str "x")]⟩

/-- C6 counterexample: for this pr request the canonical coordinates are
derived as `organization = "org"`, `repository = "repo"`, `sha = "abc"`,
yet none of the keys `organization`, `repository`, `sha` occur in the
derived `state` — the canonical fields are not added to pr states, so the
claim that `state` always contains them is false. -/
theorem C6_counterexample :
    (deriveParams (.pr c6PrData)).organization = "org" ∧
    (deriveParams (.pr c6PrData)).repository = "repo" ∧
    (deriveParams (.pr c6PrData)).sha = "abc" ∧
    (deriveParams (.pr c6PrData)).state.lookup "organization" = none ∧
    (deriveParams (.pr c6PrData)).state.lookup "repository" = none ∧
    (deriveParams (.pr c6PrData)).state.lookup "sha" = none :=
  ⟨rfl, rfl, rfl, rfl, rfl, rfl⟩

/-- C6 amended: for every request the `state` value used by the handler
is exactly the full validated data record of the chosen variant,
declared fields first and passthrough fields preserved verbatim; for the
scm variant this includes the canonical fields, while for the pr variant
it consists of `repoURL`, `branch`, `head_sha` plus the passthrough
fields, and the canonical `organization`, `repository`, `sha` are not
added (they are absent whenever no passthrough field carries those
keys). -/
theorem C6_state_is_validated_record (request : GetParamsRequest) :
    (∀ d, request.input.parameters.data = .scm d →
      (deriveParams request.input.parameters.data).state =
        [("organization", .str d.organization),
         ("repository", .str d.repository),
         ("branch", .str d.branch), ("sha", .str d.sha)] ++ d.extra) ∧
    (∀ d, request.input.parameters.data = .pr d →
      (deriveParams request.input.parameters.data).state =
        [("repoURL", .str d.repoURL), ("branch", .str d.branch),
         ("head_sha", .str d.head_sha)] ++ d.extra) ∧
    (∀ d, request.input.parameters.data = .pr d →
      ∀ k, k ∈ ["organization", "repository", "sha"] →
        d.extra.lookup k = none →
        (deriveParams request.input.parameters.data).state.lookup k = none) := by
  refine ⟨?_, ?_, ?_⟩
  · intro d hd
    rw [hd]
    rfl
  · intro d hd
    rw [hd]
    rfl
  · intro d hd k hk hl
    rw [hd]
    have hdump : (deriveParams (ParamsData.pr d)).state =
        [("repoURL", .str d.repoURL), ("branch", .str d.branch),
         ("head_sha", .str d.head_sha)] ++ d.extra := rfl
    rw [hdump]
    fin_cases hk <;> simpa [List.lookup] using hl

theorem C6_state_is_validated_record_witness :
    (deriveParams (GetParamsRequest.mk "as"
        ⟨⟨["c"], .pr c6PrData⟩⟩).input.parameters.data).state.lookup "sha" =
      none :=
  (C6_state_is_validated_record ⟨"as", ⟨⟨["c"], .pr c6PrData⟩⟩⟩).2.2 c6PrData rfl
    "sha" (by decide) rfl

end ArgoGen
